import Mathlib

/-!
# Reed-Solomon simulation driver

A shallow embedding of `main.cpp`, the Monte-Carlo driver of the Reed-Solomon
encoder/decoder: the crude parameter check on `(m, t)`, the sweep over `num_data` channel
samples and the statistics printed for each sample.

Machine arithmetic is modelled on `Nat` and `Int`:

* an `unsigned int` is a natural number below `2^32`; the product `2 * t` is taken in
  `unsigned int` and is reduced modulo `2^32`;
* `pow(2, m) - 1 - 2 * t` is a `double` expression.  For `m <= 32`, the only values that
  reach it, every operand is an integer of magnitude below `2^53`, so the `double`
  arithmetic is exact and is modelled on `Int`;
* the conversion of that `double` to `int k` is the identity on the `int` range.  The
  language leaves the result open outside the range; the model takes it as a parameter
  (`FpToInt`) ranging over the results of the usual targets: `INT_MIN` whatever the
  operand (x86), or the nearest end of the range (saturating targets);
* `int` arithmetic is two's complement (`wrapInt`); signed overflow, undefined in the
  language, wraps;
* `EbN0_dB` holds multiples of `0.25` between `3.75` and `7.5`, which `double` represents
  and adds exactly; it is modelled on `ℚ`;
* a quotient `(double)a / b` is kept as the pair of its `int` operands (`Rate`); the
  rounding of the division and the formatting of a `double` by `cout` are not modelled.

The class `reedSolomon` is declared in `reedSolomon.h`, which is not part of the source at
hand.  What a trial returns from `compare()` and `comparesym()` is a parameter `res i j`
(sweep point `i`, trial `j`), and every member function is taken to return.  The codec
itself (field tables, encoder, channel, decoder) is not modelled.
-/

namespace ReedSolomonSim

/-! ## Constants and machine integers -/

/-- Number of different channel samples (`const int num_data = 15`). -/
def num_data : Nat := 15

/-- Number of trials at each data point (`const int num_trials_per_pt = 10000`). -/
def num_trials_per_pt : Nat := 10000

/-- Bit count of an int, the value of `sizeof(int) * 8`. -/
def INT_BITS : Nat := 32

/-- Modulus of `unsigned int` arithmetic. -/
def UINT_MOD : Nat := 4294967296

/-- Largest `int`. -/
def INT_MAX : Int := 2147483647

/-- Smallest `int`. -/
def INT_MIN : Int := -2147483648

/-- Two's complement reduction of an exact integer to the `int` range. -/
def wrapInt (x : Int) : Int := (x + 2147483648) % 4294967296 - 2147483648

/-- What a `double` to `int` conversion yields for a value outside the `int` range:
`indefinite` is the x86 result (always `INT_MIN`), `saturating` clamps to the nearest
end of the range. -/
inductive FpToInt
  | indefinite
  | saturating
  deriving DecidableEq

/-- Conversion of a `double` holding the integer `x` to `int`. -/
def doubleToInt (c : FpToInt) (x : Int) : Int :=
  if INT_MIN ≤ x ∧ x ≤ INT_MAX then x
  else
    match c with
    | .indefinite => INT_MIN
    | .saturating => if x < 0 then INT_MIN else INT_MAX

/-! ## The parameter check -/

/-- The statement `k = (pow(2, m) - 1 - 2 * t);` with `unsigned int m, t` and `int k`:
`2 * t` is computed in `unsigned int`, the difference in `double`, and the result is
converted to `int`. -/
def computeK (c : FpToInt) (m t : Nat) : Int :=
  doubleToInt c ((2 : Int) ^ m - 1 - (((2 * t) % UINT_MOD : Nat) : Int))

/-- Outcome of the two tests at the top of `main`. -/
inductive ParamCheck
  | m_too_large
  | k_not_positive (k : Int)
  | ok (k : Int)
  deriving DecidableEq

/-- The crude error checking of `main`: first `m > sizeof(int) * 8`, then `k <= 0`. -/
def paramCheck (c : FpToInt) (m t : Nat) : ParamCheck :=
  if m > INT_BITS then .m_too_large
  else
    let k := computeK c m t
    if k ≤ 0 then .k_not_positive k else .ok k

/-! ## The sweep -/

/-- Member functions of `reedSolomon` called by `main`, in call order within one trial. -/
inductive Call
  | construct (m t : Nat)
  | gen_rand_msg
  | encode
  | sim_channel (EbN0_dB : ℚ)
  | decode
  | compare
  | comparesym
  deriving DecidableEq

/-- What `main` gets back from one trial: `rs.compare()` and `rs.comparesym()`. -/
structure TrialResult where
  correctly_decoded : Bool
  error_syms : Int
  deriving DecidableEq

/-- A quotient `(double)num / den` of two `int` values, kept as the pair of operands. -/
structure Rate where
  num : Int
  den : Int
  deriving DecidableEq

/-- One item written to `cout`: a text line, or the four columns of a sweep point. -/
inductive Output
  | text (s : String)
  | row (EbN0_dB : ℚ) (num_error_syms : Int) (Error_Rate : Rate) (SER : Rate)
  deriving DecidableEq

/-- Local variables of `main` that live across the loops, with the calls made and the
lines printed so far. -/
structure Sim where
  EbN0_dB : ℚ
  num_errors : Int
  num_error_syms : Int
  calls : List Call
  out : List Output

/-- The calls one trial makes on its `reedSolomon` object. -/
def trial_calls (m t : Nat) (EbN0_dB : ℚ) : List Call :=
  [.construct m t, .gen_rand_msg, .encode, .sim_channel EbN0_dB, .decode, .compare,
   .comparesym]

/-- Body of the inner loop `for (int j = 0; j < num_trials_per_pt; j++)`. -/
def trial_body (m t : Nat) (res : Nat → Nat → TrialResult) (i : Nat) (s : Sim) (j : Nat) :
    Sim :=
  let r := res i j
  let s1 : Sim := { s with calls := s.calls ++ trial_calls m t s.EbN0_dB }
  let s2 : Sim := { s1 with num_error_syms := wrapInt (s1.num_error_syms + r.error_syms) }
  if !r.correctly_decoded then { s2 with num_errors := wrapInt (s2.num_errors + 1) } else s2

/-- Body of the outer loop `for (int i = 0; i < num_data; i++)`.  The arrays `Error_Rate`
and `SER` are written at index `i` and read back only by the `cout` line of the same pass;
the two values go straight into the printed row.  `Ps[i]` receives the constant `Pss = 0.0`
and is never read. -/
def point_body (m t : Nat) (k : Int) (res : Nat → Nat → TrialResult) (s : Sim) (i : Nat) :
    Sim :=
  let s1 : Sim := { s with EbN0_dB := s.EbN0_dB + 1 / 4, num_errors := 0, num_error_syms := 0 }
  let s2 : Sim := (List.range num_trials_per_pt).foldl (trial_body m t res i) s1
  let Error_Rate : Rate := ⟨s2.num_errors, num_trials_per_pt⟩
  let SER : Rate := ⟨s2.num_error_syms, wrapInt (num_trials_per_pt * k)⟩
  { s2 with out := s2.out ++ [.row s2.EbN0_dB s2.num_error_syms Error_Rate SER] }

/-- What one run of `main` does: the calls on `reedSolomon` objects, the lines printed and
the exit status. -/
structure Run where
  calls : List Call
  out : List Output
  status : Int

/-- The function `main`, for the values `m`, `t` assigned at its top (`m = 8`, `t = 16` as
written).  The seed set by `srand(time(0))` only reaches the trial results `res`. -/
def main (c : FpToInt) (m t : Nat) (res : Nat → Nat → TrialResult) : Run :=
  match paramCheck c m t with
  | .m_too_large =>
    ⟨[], [.text ("m (== " ++ toString m ++ ") has to be <= int bit count of "
            ++ toString INT_BITS ++ "\n")], 0⟩
  | .k_not_positive k =>
    ⟨[], [.text ("k (== n-2t == 2^m -1 -2t) = " ++ toString k ++ "is negative!!\n")], 0⟩
  | .ok k =>
    let s0 : Sim := ⟨15 / 4, 0, 0, [], []⟩
    let s := (List.range num_data).foldl (point_body m t k res) s0
    ⟨s.calls, s.out ++ [.text ("m: " ++ toString m ++ "\tt: " ++ toString t ++ "\n")], 1⟩

/-! ## Closed forms of the loops -/

/-- Number of trials `j < N` of sweep point `i` for which `compare()` returned false. -/
def failures (res : Nat → Nat → TrialResult) (i N : Nat) : Nat :=
  ((List.range N).filter (fun j => !(res i j).correctly_decoded)).length

/-- Exact sum of `comparesym()` over the trials `j < N` of sweep point `i`. -/
def mismatches (res : Nat → Nat → TrialResult) (i N : Nat) : Int :=
  ((List.range N).map (fun j => (res i j).error_syms)).sum

/-- Value of `num_error_syms` after `N` trials of point `i`, started from `a`. -/
def symAcc (res : Nat → Nat → TrialResult) (i : Nat) (a : Int) : Nat → Int
  | 0 => a
  | N + 1 => wrapInt (symAcc res i a N + (res i N).error_syms)

/-- The four columns printed for sweep point `i` when it runs at `EbN0_dB = e`. -/
def point_row (k : Int) (res : Nat → Nat → TrialResult) (e : ℚ) (i : Nat) : Output :=
  .row e (symAcc res i 0 num_trials_per_pt)
    ⟨failures res i num_trials_per_pt, num_trials_per_pt⟩
    ⟨symAcc res i 0 num_trials_per_pt, wrapInt (num_trials_per_pt * k)⟩

/-- The calls made by a complete sweep. -/
def sweep_calls (m t : Nat) : List Call :=
  (List.range num_data).flatMap (fun i : Nat =>
    (List.replicate num_trials_per_pt (trial_calls m t (4 + (i : ℚ) / 4))).flatten)

/-- The rows printed by a complete sweep. -/
def sweep_rows (k : Int) (res : Nat → Nat → TrialResult) : List Output :=
  (List.range num_data).map (fun i : Nat => point_row k res (4 + (i : ℚ) / 4) i)

/-! ## Observations on a run -/

/-- Number of `reedSolomon` objects constructed. -/
def constructions (calls : List Call) : Nat :=
  calls.countP (fun x => match x with
    | .construct _ _ => true
    | _ => false)

/-- Number of trials run, counted by their `decode()` calls. -/
def trials_run (calls : List Call) : Nat :=
  calls.countP (fun x => match x with
    | .decode => true
    | _ => false)

/-- The `EbN0_dB` arguments passed to `sim_channel`, in call order. -/
def sim_args (calls : List Call) : List ℚ :=
  calls.filterMap (fun x => match x with
    | .sim_channel e => some e
    | _ => none)

/-- Number of sweep-point lines among the output. -/
def rows_printed (out : List Output) : Nat :=
  out.countP (fun x => match x with
    | .row _ _ _ _ => true
    | _ => false)

/-- The value of a quotient of two `int` operands, without the rounding of the division. -/
def Rate.val (r : Rate) : ℚ := (r.num : ℚ) / (r.den : ℚ)

/-- The block error rate column of the `i`-th line printed. -/
def Run.Error_Rate_at (r : Run) (i : Nat) : Option Rate :=
  match r.out[i]? with
  | some (.row _ _ er _) => some er
  | _ => none

/-- The symbol error rate column of the `i`-th line printed. -/
def Run.SER_at (r : Run) (i : Nat) : Option Rate :=
  match r.out[i]? with
  | some (.row _ _ _ ser) => some ser
  | _ => none

/-- The `EbN0_dB` column of the `i`-th line printed. -/
def Run.EbN0_at (r : Run) (i : Nat) : Option ℚ :=
  match r.out[i]? with
  | some (.row e _ _ _) => some e
  | _ => none

/-- A trial oracle in which every block decodes correctly. -/
def all_correct : Nat → Nat → TrialResult := fun _ _ => ⟨true, 0⟩

/-! ## Machine integers and the parameter check -/

/-- On the `int` range the two's complement reduction is the identity. -/
theorem wrapInt_of_range {x : Int} (h1 : INT_MIN ≤ x) (h2 : x ≤ INT_MAX) : wrapInt x = x := by
  unfold wrapInt
  unfold INT_MIN at h1
  unfold INT_MAX at h2
  omega

/-- The check accepts exactly when `m` passes the first test and the computed `k` is
positive. -/
theorem paramCheck_ok_iff (c : FpToInt) (m t : Nat) (k : Int) :
    paramCheck c m t = .ok k ↔ (¬ m > INT_BITS ∧ 0 < k ∧ computeK c m t = k) := by
  unfold paramCheck
  by_cases h1 : m > INT_BITS
  · simp [h1]
  · by_cases h2 : computeK c m t ≤ 0
    · simp only [h1, h2, if_true, if_false, not_false_eq_true, true_and]
      constructor
      · intro h; cases h
      · rintro ⟨h3, h4⟩; omega
    · simp only [h1, h2, if_false, not_false_eq_true, true_and, ParamCheck.ok.injEq]
      constructor
      · intro h; subst h; exact ⟨by omega, rfl⟩
      · intro h; exact h.2

/-- For `m = 0` the computed `k` is never positive. -/
theorem computeK_zero_le (c : FpToInt) (t : Nat) : computeK c 0 t ≤ 0 := by
  unfold computeK doubleToInt
  have hw : (0 : Int) ≤ (((2 * t) % UINT_MOD : Nat) : Int) := Int.ofNat_nonneg _
  split
  · simp only [pow_zero]; omega
  · cases c
    · simp [INT_MIN]
    · simp only []
      split
      · simp [INT_MIN]
      · rename_i h1 h2
        simp only [pow_zero, INT_MIN, INT_MAX] at h1 h2 ⊢
        omega

/-- Where `2 * t` does not wrap and `n - 2t` fits an `int`, the computed `k` is exact. -/
theorem computeK_exact (c : FpToInt) (m t : Nat) (h1 : 2 * t < UINT_MOD)
    (h2 : INT_MIN ≤ (2 : Int) ^ m - 1 - 2 * t) (h3 : (2 : Int) ^ m - 1 - 2 * t ≤ INT_MAX) :
    computeK c m t = (2 : Int) ^ m - 1 - 2 * t := by
  unfold computeK doubleToInt
  rw [Nat.mod_eq_of_lt h1]
  push_cast
  rw [if_pos ⟨h2, h3⟩]

/-- Where `2 * t` does not wrap, the check rejects every configuration with
`n - 2t <= 0`. -/
theorem paramCheck_rejects_without_wrap (c : FpToInt) (m t : Nat) (hm : m ≤ INT_BITS)
    (ht : 2 * t < UINT_MOD) (hn : (2 : Int) ^ m - 1 - 2 * t ≤ 0) :
    ∃ k : Int, k ≤ 0 ∧ paramCheck c m t = .k_not_positive k := by
  have hk : computeK c m t ≤ 0 := by
    unfold computeK doubleToInt
    rw [Nat.mod_eq_of_lt ht]
    push_cast
    split
    · exact hn
    · rename_i h
      cases c
      · simp [INT_MIN]
      · simp only []
        split
        · simp [INT_MIN]
        · rename_i h2
          simp only [INT_MIN, INT_MAX] at h h2 ⊢
          omega
  refine ⟨computeK c m t, hk, ?_⟩
  have hm2 : ¬ m > INT_BITS := by omega
  simp [paramCheck, hm2, hk]

/-! ## The inner loop -/

/-- One more trial adds one failure exactly when its `compare()` was false. -/
theorem failures_succ (res : Nat → Nat → TrialResult) (i N : Nat) :
    failures res i (N + 1) =
      failures res i N + (if (res i N).correctly_decoded then 0 else 1) := by
  unfold failures
  rw [List.range_succ, List.filter_append, List.length_append]
  cases h : (res i N).correctly_decoded <;> simp [h]

/-- There are at most as many failures as trials. -/
theorem failures_le (res : Nat → Nat → TrialResult) (i N : Nat) : failures res i N ≤ N := by
  induction N with
  | zero => simp [failures]
  | succ N ih =>
    rw [failures_succ]
    split <;> omega

/-- The number of failures of point `i` depends on the trials of point `i` only. -/
theorem failures_congr (res res2 : Nat → Nat → TrialResult) (i N : Nat)
    (h : ∀ j, j < N → res2 i j = res i j) : failures res2 i N = failures res i N := by
  induction N with
  | zero => rfl
  | succ N ih =>
    rw [failures_succ, failures_succ, ih (fun j hj => h j (Nat.lt_succ_of_lt hj)),
      h N (Nat.lt_succ_self N)]

/-- One more trial adds its mismatch count to the exact sum. -/
theorem mismatches_succ (res : Nat → Nat → TrialResult) (i N : Nat) :
    mismatches res i (N + 1) = mismatches res i N + (res i N).error_syms := by
  unfold mismatches
  rw [List.range_succ, List.map_append, List.sum_append]
  simp

/-- Without overflow `num_error_syms` is the exact sum of the mismatch counts. -/
theorem symAcc_exact (res : Nat → Nat → TrialResult) (i : Nat) (k : Int) (N : Nat)
    (hk : (N : Int) * k ≤ INT_MAX)
    (hres : ∀ j, j < N → 0 ≤ (res i j).error_syms ∧ (res i j).error_syms ≤ k) :
    symAcc res i 0 N = mismatches res i N ∧ 0 ≤ mismatches res i N ∧
      mismatches res i N ≤ N * k := by
  induction N with
  | zero => simp [symAcc, mismatches]
  | succ N ih =>
    have hr := hres N (Nat.lt_succ_self N)
    have hk0 : 0 ≤ k := le_trans hr.1 hr.2
    have hNk : (N : Int) * k ≤ INT_MAX := by
      have : (N : Int) * k ≤ ((N + 1 : Nat) : Int) * k := by
        push_cast; nlinarith
      exact le_trans this hk
    obtain ⟨h1, h2, h3⟩ := ih hNk (fun j hj => hres j (Nat.lt_succ_of_lt hj))
    have hsum : mismatches res i N + (res i N).error_syms ≤ ((N + 1 : Nat) : Int) * k := by
      push_cast; nlinarith
    rw [symAcc, h1, mismatches_succ]
    refine ⟨?_, by omega, hsum⟩
    apply wrapInt_of_range
    · unfold INT_MIN; omega
    · exact le_trans hsum hk

/-- A trial leaves `EbN0_dB` unchanged. -/
theorem trial_body_EbN0 (m t : Nat) (res : Nat → Nat → TrialResult) (i : Nat) (s : Sim)
    (j : Nat) : (trial_body m t res i s j).EbN0_dB = s.EbN0_dB := by
  cases h : (res i j).correctly_decoded <;> simp [trial_body, h]

/-- A trial prints nothing. -/
theorem trial_body_out (m t : Nat) (res : Nat → Nat → TrialResult) (i : Nat) (s : Sim)
    (j : Nat) : (trial_body m t res i s j).out = s.out := by
  cases h : (res i j).correctly_decoded <;> simp [trial_body, h]

/-- A trial appends its seven calls, the construction first. -/
theorem trial_body_calls (m t : Nat) (res : Nat → Nat → TrialResult) (i : Nat) (s : Sim)
    (j : Nat) : (trial_body m t res i s j).calls = s.calls ++ trial_calls m t s.EbN0_dB := by
  cases h : (res i j).correctly_decoded <;> simp [trial_body, h]

/-- A trial adds `comparesym()` to `num_error_syms`, in `int`. -/
theorem trial_body_syms (m t : Nat) (res : Nat → Nat → TrialResult) (i : Nat) (s : Sim)
    (j : Nat) :
    (trial_body m t res i s j).num_error_syms =
      wrapInt (s.num_error_syms + (res i j).error_syms) := by
  cases h : (res i j).correctly_decoded <;> simp [trial_body, h]

/-- A trial increments `num_errors` exactly when `compare()` was false. -/
theorem trial_body_errors (m t : Nat) (res : Nat → Nat → TrialResult) (i : Nat) (s : Sim)
    (j : Nat) :
    (trial_body m t res i s j).num_errors =
      if (res i j).correctly_decoded then s.num_errors else wrapInt (s.num_errors + 1) := by
  cases h : (res i j).correctly_decoded <;> simp [trial_body, h]

/-- The inner loop, run for `N` trials from state `s`. -/
theorem trial_loop (m t : Nat) (res : Nat → Nat → TrialResult) (i : Nat) (s : Sim) (N : Nat) :
    ((List.range N).foldl (trial_body m t res i) s).EbN0_dB = s.EbN0_dB ∧
    ((List.range N).foldl (trial_body m t res i) s).out = s.out ∧
    ((List.range N).foldl (trial_body m t res i) s).calls =
      s.calls ++ (List.replicate N (trial_calls m t s.EbN0_dB)).flatten ∧
    ((List.range N).foldl (trial_body m t res i) s).num_error_syms =
      symAcc res i s.num_error_syms N ∧
    (0 ≤ s.num_errors → s.num_errors + N ≤ INT_MAX →
      ((List.range N).foldl (trial_body m t res i) s).num_errors =
        s.num_errors + failures res i N) := by
  induction N with
  | zero => simp [failures, symAcc]
  | succ N ih =>
    obtain ⟨hE, hO, hC, hS, hN⟩ := ih
    simp only [List.range_succ, List.foldl_append, List.foldl_cons, List.foldl_nil]
    refine ⟨?_, ?_, ?_, ?_, ?_⟩
    · rw [trial_body_EbN0, hE]
    · rw [trial_body_out, hO]
    · rw [trial_body_calls, hC, hE, List.replicate_succ', List.flatten_append]
      simp
    · rw [trial_body_syms, hS, symAcc]
    · intro h0 hmax
      have hN2 := hN h0 (by push_cast at hmax ⊢; omega)
      have hle := failures_le res i N
      rw [trial_body_errors, hN2, failures_succ]
      cases hb : (res i N).correctly_decoded
      · simp only [Bool.false_eq_true, if_false]
        rw [wrapInt_of_range]
        · push_cast; ring
        · unfold INT_MIN; omega
        · push_cast at hmax ⊢; unfold INT_MAX at hmax ⊢; omega
      · simp

/-! ## The outer loop and `main` -/

/-- One pass of the outer loop body. -/
theorem point_body_eq (m t : Nat) (k : Int) (res : Nat → Nat → TrialResult) (s : Sim)
    (i : Nat) :
    (point_body m t k res s i).EbN0_dB = s.EbN0_dB + 1 / 4 ∧
    (point_body m t k res s i).calls =
      s.calls ++ (List.replicate num_trials_per_pt
        (trial_calls m t (s.EbN0_dB + 1 / 4))).flatten ∧
    (point_body m t k res s i).out = s.out ++ [point_row k res (s.EbN0_dB + 1 / 4) i] := by
  have hmax : (0 : Int) + (num_trials_per_pt : Nat) ≤ INT_MAX := by
    simp [num_trials_per_pt, INT_MAX]
  unfold point_body point_row
  generalize num_trials_per_pt = N at hmax ⊢
  obtain ⟨hE, hO, hC, hS, hN⟩ := trial_loop m t res i
    { s with EbN0_dB := s.EbN0_dB + 1 / 4, num_errors := 0, num_error_syms := 0 } N
  have hN2 := hN (le_refl _) hmax
  simp only [zero_add] at hN2
  simp only [hE, hO, hC, hS, hN2, and_self]

/-- The outer loop, run for `M` points from state `s`. -/
theorem point_loop (m t : Nat) (k : Int) (res : Nat → Nat → TrialResult) (s : Sim) (M : Nat) :
    ((List.range M).foldl (point_body m t k res) s).EbN0_dB = s.EbN0_dB + M / 4 ∧
    ((List.range M).foldl (point_body m t k res) s).calls =
      s.calls ++ (List.range M).flatMap (fun i : Nat =>
        (List.replicate num_trials_per_pt
          (trial_calls m t (s.EbN0_dB + ((i : ℚ) + 1) / 4))).flatten) ∧
    ((List.range M).foldl (point_body m t k res) s).out =
      s.out ++ (List.range M).map (fun i : Nat =>
        point_row k res (s.EbN0_dB + ((i : ℚ) + 1) / 4) i) := by
  induction M with
  | zero => simp
  | succ M ih =>
    obtain ⟨hE, hC, hO⟩ := ih
    obtain ⟨bE, bC, bO⟩ := point_body_eq m t k res
      ((List.range M).foldl (point_body m t k res) s) M
    simp only [List.range_succ, List.foldl_append, List.foldl_cons, List.foldl_nil]
    have e : s.EbN0_dB + (M : ℚ) / 4 + 1 / 4 = s.EbN0_dB + ((M : ℚ) + 1) / 4 := by ring
    refine ⟨?_, ?_, ?_⟩
    · rw [bE, hE, e]; push_cast; rfl
    · rw [bC, hC, hE, e, List.flatMap_append]
      simp only [List.flatMap_cons, List.flatMap_nil, List.append_nil, List.append_assoc]
    · rw [bO, hO, hE, e, List.map_append]
      simp only [List.map_cons, List.map_nil, List.append_assoc]

/-- A run of `main` whose parameters pass the check, in closed form. -/
theorem main_ok (c : FpToInt) (m t : Nat) (k : Int) (res : Nat → Nat → TrialResult)
    (h : paramCheck c m t = .ok k) :
    main c m t res =
      ⟨sweep_calls m t,
       sweep_rows k res ++ [.text ("m: " ++ toString m ++ "\tt: " ++ toString t ++ "\n")],
       1⟩ := by
  obtain ⟨_, hC, hO⟩ := point_loop m t k res ⟨15 / 4, 0, 0, [], []⟩ num_data
  have e : ∀ i : Nat, (15 / 4 : ℚ) + ((i : ℚ) + 1) / 4 = 4 + (i : ℚ) / 4 := by
    intro i; ring
  simp only [main, h, hC, hO, e, sweep_calls, sweep_rows, List.nil_append]

/-- A run of `main` whose parameters fail the check, in closed form. -/
theorem main_rejected (c : FpToInt) (m t : Nat) (res : Nat → Nat → TrialResult) :
    (m > INT_BITS → main c m t res =
      ⟨[], [.text ("m (== " ++ toString m ++ ") has to be <= int bit count of "
        ++ toString INT_BITS ++ "\n")], 0⟩) ∧
    (¬ m > INT_BITS → computeK c m t ≤ 0 → main c m t res =
      ⟨[], [.text ("k (== n-2t == 2^m -1 -2t) = " ++ toString (computeK c m t)
        ++ "is negative!!\n")], 0⟩) := by
  refine ⟨fun h => ?_, fun h1 h2 => ?_⟩
  · simp [main, paramCheck, h]
  · simp [main, paramCheck, h1, h2]

/-! ## Counting calls and rows -/

/-- Counting in `N` copies of a list. -/
theorem countP_flatten_replicate {α : Type} (p : α → Bool) (l : List α) (N : Nat) :
    (List.replicate N l).flatten.countP p = N * l.countP p := by
  induction N with
  | zero => simp
  | succ N ih =>
    rw [List.replicate_succ, List.flatten_cons, List.countP_append, ih]
    ring

/-- Counting in a concatenation of blocks that all hold the same count. -/
theorem countP_flatMap_const {α β : Type} (p : β → Bool) (f : α → List β) (n : Nat)
    (l : List α) (h : ∀ a, (f a).countP p = n) : (l.flatMap f).countP p = l.length * n := by
  induction l with
  | nil => simp
  | cons a l ih =>
    rw [List.flatMap_cons, List.countP_append, ih, h, List.length_cons]
    ring

/-- Length of a concatenation of blocks of equal length. -/
theorem length_flatMap_const {α β : Type} (f : α → List β) (n : Nat) (l : List α)
    (h : ∀ a, (f a).length = n) : (l.flatMap f).length = l.length * n := by
  induction l with
  | nil => simp
  | cons a l ih =>
    rw [List.flatMap_cons, List.length_append, ih, h, List.length_cons]
    ring

/-- Filtering `N` copies of a list that keeps a single element. -/
theorem filterMap_flatten_replicate_single {α β : Type} (g : α → Option β) (l : List α)
    (b : β) (N : Nat) (h : l.filterMap g = [b]) :
    (List.replicate N l).flatten.filterMap g = List.replicate N b := by
  induction N with
  | zero => simp
  | succ N ih =>
    rw [List.replicate_succ, List.flatten_cons, List.filterMap_append, ih, h]
    rfl

/-- Filtering commutes with the concatenation of blocks. -/
theorem filterMap_flatMap {α β γ : Type} (g : β → Option γ) (f : α → List β) (l : List α) :
    (l.flatMap f).filterMap g = l.flatMap (fun a => (f a).filterMap g) := by
  induction l with
  | nil => rfl
  | cons a l ih => rw [List.flatMap_cons, List.filterMap_append, ih, List.flatMap_cons]

/-- A complete sweep constructs `num_data * num_trials_per_pt` objects. -/
theorem constructions_sweep (m t : Nat) :
    constructions (sweep_calls m t) = num_data * num_trials_per_pt := by
  unfold constructions sweep_calls
  rw [countP_flatMap_const _ _ (num_trials_per_pt * 1)]
  · simp
  · intro i
    rw [countP_flatten_replicate]
    rfl

/-- A complete sweep runs `num_data * num_trials_per_pt` trials. -/
theorem trials_run_sweep (m t : Nat) :
    trials_run (sweep_calls m t) = num_data * num_trials_per_pt := by
  unfold trials_run sweep_calls
  rw [countP_flatMap_const _ _ (num_trials_per_pt * 1)]
  · simp
  · intro i
    rw [countP_flatten_replicate]
    rfl

/-- The arguments of `sim_channel` over a complete sweep. -/
theorem sim_args_sweep (m t : Nat) :
    sim_args (sweep_calls m t) =
      (List.range num_data).flatMap (fun i : Nat =>
        List.replicate num_trials_per_pt (4 + (i : ℚ) / 4)) := by
  unfold sim_args sweep_calls
  rw [filterMap_flatMap]
  have hf : ∀ i : Nat,
      (List.replicate num_trials_per_pt (trial_calls m t (4 + (i : ℚ) / 4))).flatten.filterMap
        (fun x => match x with
          | .sim_channel e => some e
          | _ => none) = List.replicate num_trials_per_pt (4 + (i : ℚ) / 4) :=
    fun i => filterMap_flatten_replicate_single _ _ _ _ rfl
  simp only [hf]

/-- A complete sweep calls `sim_channel` `num_data * num_trials_per_pt` times. -/
theorem sim_args_length :
    ((List.range num_data).flatMap (fun i : Nat =>
      List.replicate num_trials_per_pt (4 + (i : ℚ) / 4))).length =
      num_data * num_trials_per_pt := by
  rw [length_flatMap_const _ num_trials_per_pt]
  · simp
  · intro i; simp

/-- The calls of a complete sweep are consecutive trial blocks. -/
theorem sweep_calls_blocks (m t : Nat) :
    sweep_calls m t =
      ((List.range num_data).flatMap (fun i : Nat =>
        List.replicate num_trials_per_pt (4 + (i : ℚ) / 4))).flatMap (trial_calls m t) := by
  unfold sweep_calls
  rw [List.flatMap_assoc]
  simp only [List.flatMap_replicate]

/-- A complete sweep prints `num_data` rows. -/
theorem sweep_rows_length (k : Int) (res : Nat → Nat → TrialResult) :
    (sweep_rows k res).length = num_data := by
  simp [sweep_rows]

/-- The `i`-th line printed by a complete sweep is the row of point `i`. -/
theorem sweep_rows_get (k : Int) (res : Nat → Nat → TrialResult) (l : List Output) (i : Nat)
    (hi : i < num_data) :
    (sweep_rows k res ++ l)[i]? = some (point_row k res (4 + (i : ℚ) / 4) i) := by
  rw [List.getElem?_append_left (by rw [sweep_rows_length]; exact hi)]
  simp [sweep_rows, List.getElem?_range hi]

/-- The closing text line is not counted among the rows. -/
theorem rows_printed_sweep (k : Int) (res : Nat → Nat → TrialResult) (s : String) :
    rows_printed (sweep_rows k res ++ [.text s]) = num_data := by
  unfold rows_printed sweep_rows
  rw [List.countP_append, List.countP_map]
  simp [point_row, Function.comp_def]

/-- Where neither `num_trials_per_pt * k` nor the running sum overflows, the symbol error
rate of point `i` is the exact sum of the mismatch counts over `10000 * k`. -/
theorem ser_exact (c : FpToInt) (m t : Nat) (k : Int) (res : Nat → Nat → TrialResult)
    (i : Nat) (hk : paramCheck c m t = .ok k) (hi : i < num_data)
    (hfit : (num_trials_per_pt : Int) * k ≤ INT_MAX)
    (hres : ∀ j, j < num_trials_per_pt → 0 ≤ (res i j).error_syms ∧ (res i j).error_syms ≤ k) :
    (main c m t res).SER_at i =
      some ⟨mismatches res i num_trials_per_pt, (num_trials_per_pt : Int) * k⟩ := by
  have hk0 : 0 < k := ((paramCheck_ok_iff c m t k).1 hk).2.1
  obtain ⟨h1, _, _⟩ := symAcc_exact res i k num_trials_per_pt hfit hres
  have hw : wrapInt ((num_trials_per_pt : Int) * k) = (num_trials_per_pt : Int) * k := by
    apply wrapInt_of_range _ hfit
    have : (0 : Int) ≤ (num_trials_per_pt : Int) * k :=
      mul_nonneg (Int.ofNat_nonneg _) (le_of_lt hk0)
    unfold INT_MIN
    omega
  rw [main_ok c m t k res hk]
  simp only [Run.SER_at, sweep_rows_get _ _ _ i hi, point_row, h1, hw]

/-- When the parameter check fails, `main` makes no call on any `reedSolomon` object (none
is constructed, no trial runs) and exits; the one line it prints names the parameter and
carries the value of the variable: `m` when `m` exceeds the bit count of an `int`,
otherwise the computed `k`, which is `2^m - 1 - 2t` where `2 * t` does not wrap and the
difference fits an `int`. -/
theorem rejection_prints_computed_value (c : FpToInt) (m t : Nat)
    (res : Nat → Nat → TrialResult) :
    (m > INT_BITS →
      (main c m t res).calls = [] ∧ constructions (main c m t res).calls = 0 ∧
      trials_run (main c m t res).calls = 0 ∧ (main c m t res).status = 0 ∧
      (main c m t res).out =
        [.text ("m (== " ++ toString m ++ ") has to be <= int bit count of "
          ++ toString (32 : Nat) ++ "\n")]) ∧
    (¬ m > INT_BITS → computeK c m t ≤ 0 →
      (main c m t res).calls = [] ∧ constructions (main c m t res).calls = 0 ∧
      trials_run (main c m t res).calls = 0 ∧ (main c m t res).status = 0 ∧
      (main c m t res).out =
        [.text ("k (== n-2t == 2^m -1 -2t) = " ++ toString (computeK c m t)
          ++ "is negative!!\n")] ∧
      (2 * t < UINT_MOD → INT_MIN ≤ (2 : Int) ^ m - 1 - 2 * t →
        (2 : Int) ^ m - 1 - 2 * t ≤ INT_MAX →
        computeK c m t = (2 : Int) ^ m - 1 - 2 * t)) := by
  refine ⟨fun h => ?_, fun h1 h2 => ?_⟩
  · rw [(main_rejected c m t res).1 h]
    exact ⟨rfl, rfl, rfl, rfl, rfl⟩
  · rw [(main_rejected c m t res).2 h1 h2]
    exact ⟨rfl, rfl, rfl, rfl, rfl, fun h3 h4 h5 => computeK_exact c m t h3 h4 h5⟩

/-! ## The claims -/

/-- C1 (the code breaks it): for `m = 8`, `t = 2147483648` the exact `n - 2t` is negative,
but the `unsigned int` product `2 * t` wraps to `0`, so the check computes `k = 255`,
accepts the configuration and the whole sweep of 150000 trials runs. -/
theorem C1_wrapped_product_accepted :
    (2 : Int) ^ 8 - 1 - 2 * 2147483648 ≤ 0 ∧ (8 : Nat) ≤ 32 ∧ 2147483648 < UINT_MOD ∧
    ∀ (c : FpToInt) (res : Nat → Nat → TrialResult),
      paramCheck c 8 2147483648 = .ok 255 ∧
      trials_run (main c 8 2147483648 res).calls = 150000 := by
  refine ⟨by decide, by decide, by decide, fun c res => ?_⟩
  have h : paramCheck c 8 2147483648 = .ok 255 := by cases c <;> decide
  refine ⟨h, ?_⟩
  rw [main_ok c 8 2147483648 255 res h]
  exact trials_run_sweep 8 2147483648

/-- C2 (the code breaks it): for `m = 18`, `t = 16` the check accepts with `k = 262111`, and
the denominator of the symbol error rate, the `int` product `num_trials_per_pt * k`,
overflows: every sweep point divides by `-1673857296`, not by `10000 * 262111`. -/
theorem C2_ser_denominator_overflows :
    ∀ (c : FpToInt) (res : Nat → Nat → TrialResult),
      paramCheck c 18 16 = .ok 262111 ∧ (262111 : Int) = 2 ^ 18 - 1 - 2 * 16 ∧
      (List.range num_data).map (fun i => ((main c 18 16 res).SER_at i).map Rate.den) =
        List.replicate 15 (some (-1673857296)) ∧
      (-1673857296 : Int) ≠ 10000 * 262111 := by
  intro c res
  have h : paramCheck c 18 16 = .ok 262111 := by cases c <;> decide
  refine ⟨h, by decide, ?_, by decide⟩
  rw [main_ok c 18 16 262111 res h]
  have hw : wrapInt ((num_trials_per_pt : Int) * 262111) = -1673857296 := by decide
  have hrow : ∀ i, i < num_data →
      ((Run.SER_at ⟨sweep_calls 18 16, sweep_rows 262111 res ++
          [.text ("m: " ++ toString 18 ++ "\tt: " ++ toString 16 ++ "\n")], 1⟩ i).map
        Rate.den) = some (-1673857296) := by
    intro i hi
    simp only [Run.SER_at, sweep_rows_get _ _ _ i hi, point_row, Option.map, hw]
  apply List.ext_getElem
  · simp [num_data]
  · intro n h1 h2
    simp only [List.length_map, List.length_range] at h1
    simp only [List.getElem_map, List.getElem_range, List.getElem_replicate]
    exact hrow n h1

/-- C3: for every accepted configuration and every sweep point `i`, the block error rate
printed for the point is (number of the point's own 10000 trials whose `compare()` was
false) / 10000; it lies in `[0, 1]`, and it is the same for any other run whose trial
results agree on point `i`, whatever happened at the other points. -/
theorem C3_block_error_rate (c : FpToInt) (m t : Nat) (k : Int)
    (res : Nat → Nat → TrialResult) (i : Nat)
    (hk : paramCheck c m t = .ok k) (hi : i < num_data) :
    (main c m t res).Error_Rate_at i =
      some ⟨(failures res i num_trials_per_pt : Int), (num_trials_per_pt : Int)⟩ ∧
    failures res i num_trials_per_pt =
      ((List.range 10000).filter (fun j => !(res i j).correctly_decoded)).length ∧
    (0 : ℚ) ≤ Rate.val ⟨failures res i num_trials_per_pt, num_trials_per_pt⟩ ∧
    Rate.val ⟨failures res i num_trials_per_pt, num_trials_per_pt⟩ ≤ 1 ∧
    ∀ res2 : Nat → Nat → TrialResult,
      (∀ j, j < num_trials_per_pt → res2 i j = res i j) →
      (main c m t res2).Error_Rate_at i = (main c m t res).Error_Rate_at i := by
  have hrate : ∀ r : Nat → Nat → TrialResult, (main c m t r).Error_Rate_at i =
      some ⟨(failures r i num_trials_per_pt : Int), (num_trials_per_pt : Int)⟩ := by
    intro r
    rw [main_ok c m t k r hk]
    simp only [Run.Error_Rate_at, sweep_rows_get _ _ _ i hi, point_row]
  have hle := failures_le res i num_trials_per_pt
  refine ⟨hrate res, rfl, ?_, ?_, ?_⟩
  · unfold Rate.val
    simp only [Int.cast_natCast]
    exact div_nonneg (Nat.cast_nonneg _) (Nat.cast_nonneg _)
  · unfold Rate.val
    simp only [Int.cast_natCast]
    rw [div_le_one (by simp [num_trials_per_pt])]
    exact_mod_cast hle
  · intro res2 h2
    rw [hrate res2, hrate res, failures_congr res res2 i num_trials_per_pt h2]

/-- Witness for C3: the built-in configuration at the first sweep point. -/
theorem C3_block_error_rate_witness :
    (main .indefinite 8 16 all_correct).Error_Rate_at 0 =
      some ⟨(failures all_correct 0 num_trials_per_pt : Int), (num_trials_per_pt : Int)⟩ :=
  (C3_block_error_rate .indefinite 8 16 223 all_correct 0 (by decide) (by decide)).1

/-- C4: for `m = 0` and every `t` the parameter check takes the `k <= 0` exit: no
`reedSolomon` object is constructed, no trial runs and `main` exits. -/
theorem C4_m_zero_rejected (c : FpToInt) (t : Nat) (res : Nat → Nat → TrialResult) :
    (∃ k : Int, k ≤ 0 ∧ paramCheck c 0 t = .k_not_positive k) ∧
    (main c 0 t res).calls = [] ∧ trials_run (main c 0 t res).calls = 0 ∧
    (main c 0 t res).status = 0 := by
  have hk := computeK_zero_le c t
  have hm : ¬ (0 > INT_BITS) := by decide
  have hmain := (main_rejected c 0 t res).2 hm hk
  refine ⟨⟨computeK c 0 t, hk, ?_⟩, ?_, ?_, ?_⟩
  · simp [paramCheck, hm, hk]
  · rw [hmain]
  · rw [hmain]; rfl
  · rw [hmain]

/-- C5 (the code breaks it): `m = 32` with `t = 1073741824` passes both tests, with
`k = 2147483647`, although `32` is not less than the bit count of an `int` and the field
element `2^32 - 1` does not fit in an `int`. -/
theorem C5_m_equal_bit_count_accepted :
    (∀ c : FpToInt, paramCheck c 32 1073741824 = .ok 2147483647) ∧
    ¬ (32 < INT_BITS) ∧ ¬ ((2 : Int) ^ 32 - 1 ≤ INT_MAX) := by
  refine ⟨fun c => ?_, by decide, by decide⟩
  cases c <;> decide

/-- C6 (the code breaks it): for `m = 8`, `t = 2147483776` the check takes the `k <= 0`
exit with no call on any `reedSolomon` object, but the value in the line it prints as
`k (== n-2t == 2^m -1 -2t)` is `-1`, computed from the wrapped product `2 * t = 256`,
while `n - 2t` is `-4294967297`.  For `m = 32`, `t = 0`, where the `double` value
`4294967295` of `k` does not fit an `int`, the x86 conversion makes `main` print
`-2147483648` although `n - 2t` is positive. -/
theorem C6_printed_k_differs_from_exact :
    (∀ (c : FpToInt) (res : Nat → Nat → TrialResult),
      ¬ 8 > INT_BITS ∧ computeK c 8 2147483776 = -1 ∧
      main c 8 2147483776 res =
        ⟨[], [.text "k (== n-2t == 2^m -1 -2t) = -1is negative!!\n"], 0⟩) ∧
    (2 : Int) ^ 8 - 1 - 2 * 2147483776 = -4294967297 ∧
    (∀ res : Nat → Nat → TrialResult,
      main .indefinite 32 0 res =
        ⟨[], [.text "k (== n-2t == 2^m -1 -2t) = -2147483648is negative!!\n"], 0⟩) ∧
    (2 : Int) ^ 32 - 1 - 2 * 0 = 4294967295 := by
  refine ⟨fun c res => ?_, by decide, fun res => ?_, by decide⟩
  · have hk : computeK c 8 2147483776 = -1 := by cases c <;> decide
    have hm : ¬ 8 > INT_BITS := by decide
    refine ⟨hm, hk, ?_⟩
    have hs : "k (== n-2t == 2^m -1 -2t) = " ++ toString (-1 : Int) ++ "is negative!!\n" =
        "k (== n-2t == 2^m -1 -2t) = -1is negative!!\n" := by decide
    rw [(main_rejected c 8 2147483776 res).2 hm (by rw [hk]; decide), hk, hs]
  · have hk : computeK .indefinite 32 0 = -2147483648 := by decide
    have hm : ¬ 32 > INT_BITS := by decide
    have hs : "k (== n-2t == 2^m -1 -2t) = " ++ toString (-2147483648 : Int)
        ++ "is negative!!\n" =
        "k (== n-2t == 2^m -1 -2t) = -2147483648is negative!!\n" := by decide
    rw [(main_rejected .indefinite 32 0 res).2 hm (by rw [hk]; decide), hk, hs]

/-- C7 (as stated it fails): in the built-in run the constructor `reedSolomon(m, t)` runs
150000 times, not once. -/
theorem C7_constructed_150000_times :
    constructions (main .indefinite 8 16 all_correct).calls = 150000 ∧
    constructions (main .indefinite 8 16 all_correct).calls ≠ 1 := by
  have h : constructions (main .indefinite 8 16 all_correct).calls = 150000 := by
    rw [main_ok .indefinite 8 16 223 all_correct (by decide)]
    exact constructions_sweep 8 16
  exact ⟨h, by rw [h]; decide⟩

/-- C7 (amended): in every accepted run the constructor `reedSolomon(m, t)` runs once per
trial, as the first call of the trial: the calls of the run are 150000 consecutive blocks
`construct, gen_rand_msg, encode, sim_channel, decode, compare, comparesym`, so 150000
objects are constructed and each serves exactly one trial. -/
theorem C7_one_construction_per_trial (c : FpToInt) (m t : Nat) (k : Int)
    (res : Nat → Nat → TrialResult) (hk : paramCheck c m t = .ok k) :
    constructions (main c m t res).calls = num_data * num_trials_per_pt ∧
    trials_run (main c m t res).calls = num_data * num_trials_per_pt ∧
    num_data * num_trials_per_pt = 150000 ∧
    ∃ es : List ℚ, es.length = num_data * num_trials_per_pt ∧
      (main c m t res).calls = es.flatMap (trial_calls m t) := by
  rw [main_ok c m t k res hk]
  refine ⟨constructions_sweep m t, trials_run_sweep m t, by decide, _, sim_args_length, ?_⟩
  exact sweep_calls_blocks m t

/-- Witness for C7 (amended): the built-in configuration. -/
theorem C7_one_construction_per_trial_witness :
    constructions (main .indefinite 8 16 all_correct).calls = num_data * num_trials_per_pt :=
  (C7_one_construction_per_trial .indefinite 8 16 223 all_correct (by decide)).1

/-- C9: with the built-in `m = 8`, `t = 16` the check computes `k = 223` and accepts; the
sweep prints 15 points and runs 150000 trials; the arguments passed to `sim_channel` are,
in order, 10000 times `4.0 + 0.25 i` for each `i = 0..14`; `3.75` is never passed and the
last point runs at `7.5`. -/
theorem C9_builtin_sweep :
    ∀ (c : FpToInt) (res : Nat → Nat → TrialResult),
      computeK c 8 16 = 223 ∧ paramCheck c 8 16 = .ok 223 ∧
      rows_printed (main c 8 16 res).out = 15 ∧
      trials_run (main c 8 16 res).calls = 150000 ∧
      sim_args (main c 8 16 res).calls =
        (List.range 15).flatMap (fun i : Nat => List.replicate 10000 (4 + (i : ℚ) / 4)) ∧
      (sim_args (main c 8 16 res).calls).length = 150000 ∧
      (15 / 4 : ℚ) ∉ sim_args (main c 8 16 res).calls ∧
      (main c 8 16 res).EbN0_at 14 = some (15 / 2) := by
  intro c res
  have hK : computeK c 8 16 = 223 := by cases c <;> decide
  have h : paramCheck c 8 16 = .ok 223 := by cases c <;> decide
  have hs := sim_args_sweep 8 16
  rw [main_ok c 8 16 223 res h]
  refine ⟨hK, rfl, rows_printed_sweep _ _ _, trials_run_sweep 8 16, hs, ?_, ?_, ?_⟩
  · simp only []
    rw [hs]
    exact sim_args_length
  · simp only []
    rw [hs, List.mem_flatMap]
    rintro ⟨i, _, hi⟩
    rw [List.mem_replicate] at hi
    have h0 : (0 : ℚ) ≤ (i : ℚ) := Nat.cast_nonneg i
    linarith [hi.2]
  · simp only [Run.EbN0_at, sweep_rows_get _ _ _ 14 (by decide), point_row]
    norm_num

/-- C10: the exit status of `main` is `0` exactly when the parameter check rejects (either
test), `1` exactly when the sweep ran all of its 150000 trials, and never anything else. -/
theorem C10_exit_status (c : FpToInt) (m t : Nat) (res : Nat → Nat → TrialResult) :
    ((main c m t res).status = 0 ↔ (m > INT_BITS ∨ computeK c m t ≤ 0)) ∧
    ((main c m t res).status = 1 ↔
      (trials_run (main c m t res).calls = num_data * num_trials_per_pt ∧
       rows_printed (main c m t res).out = num_data)) ∧
    ((main c m t res).status = 0 ∨ (main c m t res).status = 1) := by
  by_cases h1 : m > INT_BITS
  · rw [(main_rejected c m t res).1 h1]
    simp [h1, trials_run, rows_printed, num_data, num_trials_per_pt]
  · by_cases h2 : computeK c m t ≤ 0
    · rw [(main_rejected c m t res).2 h1 h2]
      simp [h2, trials_run, rows_printed, num_data, num_trials_per_pt]
    · have hk : paramCheck c m t = .ok (computeK c m t) :=
        (paramCheck_ok_iff c m t _).2 ⟨h1, by omega, rfl⟩
      rw [main_ok c m t _ res hk]
      refine ⟨⟨fun h => ?_, fun h => ?_⟩, ⟨fun _ => ?_, fun _ => rfl⟩, Or.inr rfl⟩
      · exact absurd h (show (1 : Int) ≠ 0 by decide)
      · rcases h with h | h
        · exact absurd h h1
        · exact absurd h h2
      · exact ⟨trials_run_sweep m t, rows_printed_sweep _ _ _⟩

end ReedSolomonSim
